import Mathlib

/-!
Verification of the parsing and request-building helpers of the
spreadsheet-manager command-line tool.

Go strings are byte sequences; we model them as lists of natural
numbers.  Go 64-bit `int` arithmetic wraps around in twos-complement;
we model it with `Int` and an explicit wrap function.  Fallible Go
functions return `(value, err)` pairs whose value is only consulted
when `err == nil`; we model them with `Option` / `Except`.
-/

/-- A Go string: a sequence of bytes.  The helpers under verification
only ever test bytes against ASCII ranges, so the definitions are
stated on arbitrary naturals. -/
abbrev GoStr := List Nat

/-- Byte sequence of an ASCII Lean string literal (for ASCII text the
code points coincide with the UTF-8 bytes). -/
def gs (s : String) : GoStr := s.data.map Char.toNat

/-- Twos-complement wrap-around of 64-bit Go `int` arithmetic. -/
def wrap64 (n : Int) : Int := (n + 2 ^ 63) % 2 ^ 64 - 2 ^ 63

/-- Largest value of the Go type `int64`. -/
def int64Max : Int := 2 ^ 63 - 1

/-- Smallest value of the Go type `int64`. -/
def int64Min : Int := -(2 ^ 63)

/-- The loop guard of the column loop in a1ToGrid:
byte between the letters A and Z inclusive. -/
def isUpperB (b : Nat) : Bool := 65 ≤ b && b ≤ 90

/-- ASCII decimal digit. -/
def isDigitB (b : Nat) : Bool := 48 ≤ b && b ≤ 57

/-- One iteration of the column loop of a1ToGrid:
col = col*26 + int(cell[i] - 65 + 1), in Go `int` arithmetic. -/
def a1Step (col : Int) (b : Nat) : Int := wrap64 (col * 26 + ((b - 65 + 1 : Nat) : Int))

/-- The column-letter loop of a1ToGrid (src/src/helpers.go lines 15-18,
src/unnamed/part_001 lines 12-15): consume bytes while they are
uppercase letters, accumulating the column; return the accumulated
column and the unconsumed remainder. -/
def a1Letters : GoStr → Int → Int × GoStr
  | [], col => (col, [])
  | b :: rest, col =>
    if isUpperB b then a1Letters rest (a1Step col b) else (col, b :: rest)

/-- Decimal value of a digit run, most significant byte first. -/
def digitsVal (l : GoStr) : Nat := l.foldl (fun n b => n * 10 + (b - 48)) 0

/-- Model of Go strconv.Atoi on a 64-bit platform: an optional single
leading plus or minus sign followed by one or more ASCII decimal
digits, with the resulting value required to fit in `int64`; every
other input (including the empty string) is an error.  Go returns
`(value, err)` and callers here only use the value when `err == nil`,
so the result is an `Option`. -/
def goAtoi (s : GoStr) : Option Int :=
  match s with
  | [] => none
  | b :: rest =>
    let p := if b = 43 then (false, rest) else if b = 45 then (true, rest) else (false, b :: rest)
    if p.2 ≠ [] ∧ p.2.all isDigitB then
      let v : Int := if p.1 then -(digitsVal p.2 : Int) else (digitsVal p.2 : Int)
      if int64Min ≤ v ∧ v ≤ int64Max then some v else none
    else none

/-- Model of a1ToGrid (src/src/helpers.go lines 12-34) and A1ToGrid
(src/unnamed/part_001 lines 10-29): consume the uppercase-letter run
into a base-26 accumulator; if a non-empty remainder is left, Atoi it
into the row (propagating its error); finally decrement both results
(Go `int` arithmetic).  When the letter run consumes the whole input,
the row stays 0 and no error is raised. -/
def a1ToGrid (cell : GoStr) : Option (Int × Int) :=
  if (a1Letters cell 0).2 = [] then
    some (wrap64 ((a1Letters cell 0).1 - 1), wrap64 (0 - 1))
  else
    match goAtoi (a1Letters cell 0).2 with
    | none => none
    | some r => some (wrap64 ((a1Letters cell 0).1 - 1), wrap64 (r - 1))

/-- Model of strings.Split with a one-byte separator: cut the string at
every occurrence of the separator, keeping empty segments; the empty
string yields one empty segment. -/
def splitByte (c : Nat) : GoStr → List GoStr
  | [] => [[]]
  | b :: rest =>
    if b = c then [] :: splitByte c rest
    else
      match splitByte c rest with
      | h :: t => (b :: h) :: t
      | [] => [[b]]

/-- Model of parseRange (src/src/helpers.go lines 91-109) and
ParseRange (src/unnamed/part_001 lines 32-50): split on the colon
(byte 58), parse the first segment; with at least two segments parse
the second segment as the end cell, otherwise the end is the start.
Any segment parse error is propagated. -/
def parseRange (rangeA1 : GoStr) : Option ((Int × Int) × (Int × Int)) :=
  match splitByte 58 rangeA1 with
  | [] => none
  | p0 :: rest =>
    match a1ToGrid p0 with
    | none => none
    | some s =>
      match rest with
      | [] => some (s, s)
      | p1 :: _ =>
        match a1ToGrid p1 with
        | none => none
        | some e => some (s, e)

/-- Base-26 value of a letter run with digit values 1..26
(the letter A is 1, Z is 26, AA is 27), as an unbounded natural. -/
def lettersVal (l : GoStr) : Nat := l.foldl (fun n b => n * 26 + (b - 64)) 0

/-- The pattern `[A-Z]+[0-9]+`: a non-empty run of uppercase letters
followed by a non-empty run of ASCII digits and nothing else. -/
def matchesA1 (s : GoStr) : Bool :=
  !(s.takeWhile isUpperB).isEmpty &&
    (!(s.dropWhile isUpperB).isEmpty && (s.dropWhile isUpperB).all isDigitB)

/-! ### Arithmetic lemmas about the Go `int` model -/

theorem wrap64_eq_self (n : Int) (h1 : int64Min ≤ n) (h2 : n ≤ int64Max) :
    wrap64 n = n := by
  unfold wrap64
  unfold int64Min at h1
  unfold int64Max at h2
  rw [Int.emod_eq_of_lt (by omega) (by omega)]
  omega

/-! ### The column loop versus takeWhile / dropWhile -/

theorem a1Letters_eq (s : GoStr) : ∀ col : Int,
    a1Letters s col = ((s.takeWhile isUpperB).foldl a1Step col, s.dropWhile isUpperB) := by
  induction s with
  | nil => intro col; rfl
  | cons b rest ih =>
    intro col
    by_cases h : isUpperB b = true
    · simp [a1Letters, List.takeWhile_cons, List.dropWhile_cons, h, ih]
    · simp [a1Letters, List.takeWhile_cons, List.dropWhile_cons, h]

/-- The exact, unbounded column accumulator: one step. -/
def purStep (n b : Nat) : Nat := n * 26 + (b - 64)

theorem lettersVal_eq_foldl (l : GoStr) : lettersVal l = l.foldl purStep 0 := rfl

/-- The unbounded accumulator never decreases. -/
theorem foldl_purStep_ge (l : GoStr) : ∀ init : Nat, init ≤ l.foldl purStep init := by
  induction l with
  | nil => intro init; simp
  | cons b rest ih =>
    intro init
    have h1 : init ≤ purStep init b := by unfold purStep; nlinarith
    calc init ≤ purStep init b := h1
      _ ≤ rest.foldl purStep (purStep init b) := ih _
      _ = (b :: rest).foldl purStep init := rfl

/-- As long as the final unbounded value fits in `int64`, the wrapped
Go accumulator agrees with the unbounded one. -/
theorem a1fold_no_wrap (l : GoStr) :
    ∀ init : Nat, (∀ b ∈ l, isUpperB b = true) →
      ((l.foldl purStep init : Nat) : Int) ≤ int64Max →
      l.foldl a1Step (init : Int) = ((l.foldl purStep init : Nat) : Int) := by
  induction l with
  | nil => intro init _ _; rfl
  | cons b rest ih =>
    intro init hall hle
    have hb : isUpperB b = true := hall b (List.mem_cons_self b rest)
    have hb65 : 65 ≤ b := by
      simp only [isUpperB, Bool.and_eq_true, decide_eq_true_eq] at hb
      exact hb.1
    have hstep : a1Step (init : Int) b = ((purStep init b : Nat) : Int) := by
      have hsub : (b - 65 + 1 : Nat) = b - 64 := by omega
      have hrange : int64Min ≤ ((purStep init b : Nat) : Int) ∧
          ((purStep init b : Nat) : Int) ≤ int64Max := by
        constructor
        · have h0 : (0 : Int) ≤ ((purStep init b : Nat) : Int) := Int.natCast_nonneg _
          unfold int64Min
          omega
        · calc ((purStep init b : Nat) : Int)
              ≤ ((rest.foldl purStep (purStep init b) : Nat) : Int) := by
                exact_mod_cast foldl_purStep_ge rest (purStep init b)
            _ = (((b :: rest).foldl purStep init : Nat) : Int) := by
                rw [List.foldl_cons]
            _ ≤ int64Max := hle
      unfold a1Step purStep
      rw [hsub]
      push_cast
      exact wrap64_eq_self _ hrange.1 hrange.2
    have hall' : ∀ x ∈ rest, isUpperB x = true := fun x hx =>
      hall x (List.mem_cons_of_mem b hx)
    have hle' : ((rest.foldl purStep (purStep init b) : Nat) : Int) ≤ int64Max := hle
    calc (b :: rest).foldl a1Step (init : Int)
        = rest.foldl a1Step (a1Step (init : Int) b) := by rw [List.foldl_cons]
      _ = rest.foldl a1Step ((purStep init b : Nat) : Int) := by rw [hstep]
      _ = ((rest.foldl purStep (purStep init b) : Nat) : Int) :=
            ih (purStep init b) hall' hle'
      _ = (((b :: rest).foldl purStep init : Nat) : Int) := by rw [List.foldl_cons]

/-- Atoi on a non-empty all-digit run whose value fits is its decimal value. -/
theorem goAtoi_digits (r : GoStr) (hne : r ≠ []) (hall : r.all isDigitB = true)
    (hle : (digitsVal r : Int) ≤ int64Max) :
    goAtoi r = some (digitsVal r : Int) := by
  match r with
  | [] => exact absurd rfl hne
  | b :: rest =>
    have hb : isDigitB b = true := by
      simp only [List.all_cons, Bool.and_eq_true] at hall
      exact hall.1
    have hb48 : 48 ≤ b ∧ b ≤ 57 := by
      simp only [isDigitB, Bool.and_eq_true, decide_eq_true_eq] at hb
      exact hb
    have h43 : ¬(b = 43) := by omega
    have h45 : ¬(b = 45) := by omega
    have hmin : int64Min ≤ (digitsVal (b :: rest) : Int) := by
      have h0 : (0 : Int) ≤ (digitsVal (b :: rest) : Int) := Int.natCast_nonneg _
      unfold int64Min
      omega
    simp only [goAtoi, if_neg h43, if_neg h45, ne_eq, reduceCtorEq, not_false_iff,
      true_and, hall, if_pos, if_true]
    rw [if_pos ⟨hmin, hle⟩]
    simp

/-! ### C1: a1ToGrid on inputs matching the A1 pattern -/

/-- C1 (amended): for every input matching `[A-Z]+[0-9]+` whose letter-run
base-26 value and digit-run decimal value both fit in a 64-bit signed
integer, a1ToGrid succeeds and returns exactly (letter value - 1,
digit value - 1).  (Without the two fit conditions the original claim
fails: Go `int` arithmetic overflows, see the counterexample.) -/
theorem a1ToGrid_matching (s : GoStr) (hm : matchesA1 s = true)
    (hcol : ((lettersVal (s.takeWhile isUpperB) : Nat) : Int) ≤ int64Max)
    (hrow : ((digitsVal (s.dropWhile isUpperB) : Nat) : Int) ≤ int64Max) :
    a1ToGrid s = some (((lettersVal (s.takeWhile isUpperB) : Nat) : Int) - 1,
                       ((digitsVal (s.dropWhile isUpperB) : Nat) : Int) - 1) := by
  simp only [matchesA1, Bool.and_eq_true, Bool.not_eq_true', List.isEmpty_eq_false,
    ne_eq] at hm
  obtain ⟨-, hdne, hall⟩ := hm
  have hup : ∀ b ∈ s.takeWhile isUpperB, isUpperB b = true := fun b hb =>
    List.mem_takeWhile_imp hb
  have hfold : (s.takeWhile isUpperB).foldl a1Step (0 : Int) =
      ((lettersVal (s.takeWhile isUpperB) : Nat) : Int) := by
    have h := a1fold_no_wrap (s.takeWhile isUpperB) 0 hup
      (by rw [← lettersVal_eq_foldl]; exact hcol)
    rw [lettersVal_eq_foldl]
    exact_mod_cast h
  have hcol0 : (0 : Int) ≤ ((lettersVal (s.takeWhile isUpperB) : Nat) : Int) :=
    Int.natCast_nonneg _
  have hrow0 : (0 : Int) ≤ ((digitsVal (s.dropWhile isUpperB) : Nat) : Int) :=
    Int.natCast_nonneg _
  unfold a1ToGrid
  rw [a1Letters_eq]
  simp only [hfold]
  rw [if_neg hdne, goAtoi_digits _ hdne hall hrow]
  have hw1 : wrap64 (((lettersVal (s.takeWhile isUpperB) : Nat) : Int) - 1) =
      ((lettersVal (s.takeWhile isUpperB) : Nat) : Int) - 1 :=
    wrap64_eq_self _ (by unfold int64Min; omega) (by unfold int64Max at hcol ⊢; omega)
  have hw2 : wrap64 (((digitsVal (s.dropWhile isUpperB) : Nat) : Int) - 1) =
      ((digitsVal (s.dropWhile isUpperB) : Nat) : Int) - 1 :=
    wrap64_eq_self _ (by unfold int64Min; omega) (by unfold int64Max at hrow ⊢; omega)
  rw [hw1]
  simp [hw2]

/-- C1 witness: the three example cells of the specification. -/
theorem a1ToGrid_matching_witness :
    a1ToGrid (gs "B5") = some (1, 4) ∧ a1ToGrid (gs "A1") = some (0, 0) ∧
      a1ToGrid (gs "AA10") = some (26, 9) :=
  ⟨(a1ToGrid_matching (gs "B5") (by decide) (by decide) (by decide)).trans (by decide),
   (a1ToGrid_matching (gs "A1") (by decide) (by decide) (by decide)).trans (by decide),
   (a1ToGrid_matching (gs "AA10") (by decide) (by decide) (by decide)).trans (by decide)⟩

/-- C1 counterexample: the input "A" followed by twenty nines matches
`[A-Z]+[0-9]+`, yet a1ToGrid fails, because strconv.Atoi rejects values
above the 64-bit integer maximum.  The claim as stated, quantified over
every matching string, is therefore false. -/
theorem a1ToGrid_overflow_cex :
    matchesA1 (gs "A99999999999999999999") = true ∧
      a1ToGrid (gs "A99999999999999999999") = none := by decide

/-! ### C2: the failure set of a1ToGrid -/

/-- C2 (amended): a1ToGrid fails exactly when a non-empty remainder is
left after the maximal uppercase-letter run and strconv.Atoi rejects
that remainder (it is not an optional sign followed by digits fitting
in 64 bits).  In particular "5B" fails; but the empty string, letters
with no digits, and signed rows are accepted, contrary to the claim as
stated. -/
theorem a1ToGrid_none_iff :
    (∀ s : GoStr, a1ToGrid s = none ↔
        s.dropWhile isUpperB ≠ [] ∧ goAtoi (s.dropWhile isUpperB) = none)
    ∧ a1ToGrid (gs "5B") = none := by
  constructor
  · intro s
    unfold a1ToGrid
    rw [a1Letters_eq]
    simp only []
    by_cases h : s.dropWhile isUpperB = []
    · simp [h]
    · rw [if_neg h]
      cases hg : goAtoi (s.dropWhile isUpperB) <;> simp [hg, h]
  · decide

/-- C2 counterexample: the empty string does not match `[A-Z]+[0-9]+`,
yet a1ToGrid accepts it and returns (-1, -1): the letter loop consumes
nothing, the row parse is skipped because nothing remains, and both
zero counters are decremented. -/
theorem a1ToGrid_empty_cex :
    matchesA1 (gs "") = false ∧ a1ToGrid (gs "") = some (-1, -1) := by decide

/-! ### C3: parseRange -/

theorem splitByte_not_mem (c : Nat) (s : GoStr) (h : c ∉ s) :
    splitByte c s = [s] := by
  induction s with
  | nil => rfl
  | cons b rest ih =>
    have hbc : ¬(b = c) := fun hb => h (hb ▸ List.mem_cons_self b rest)
    have hrest : c ∉ rest := fun hm => h (List.mem_cons_of_mem b hm)
    simp only [splitByte, if_neg hbc, ih hrest]

theorem splitByte_append (c : Nat) (a b : GoStr) (ha : c ∉ a) :
    splitByte c (a ++ c :: b) = a :: splitByte c b := by
  induction a with
  | nil => simp [splitByte]
  | cons x rest ih =>
    have hxc : ¬(x = c) := fun hx => ha (hx ▸ List.mem_cons_self x rest)
    have hrest : c ∉ rest := fun hm => ha (List.mem_cons_of_mem x hm)
    simp only [List.cons_append, splitByte, if_neg hxc, List.append_eq, ih hrest]

/-- C3: parseRange of a colon-free input parses it as one cell and
duplicates the result (end equals start, errors propagated); with one
colon both segments are parsed by a1ToGrid, either error propagates,
and the results become start and end; in particular the two example
ranges of the specification parse as stated. -/
theorem parseRange_spec :
    (∀ s : GoStr, 58 ∉ s →
        parseRange s = (a1ToGrid s).map fun p => (p, p))
    ∧ (∀ a b : GoStr, 58 ∉ a → 58 ∉ b →
        parseRange (a ++ 58 :: b) =
          (a1ToGrid a).bind fun st => (a1ToGrid b).map fun en => (st, en))
    ∧ parseRange (gs "A1:B10") = some ((0, 0), (1, 9))
    ∧ parseRange (gs "C3") = some ((2, 2), (2, 2)) := by
  refine ⟨?_, ?_, by decide, by decide⟩
  · intro s hs
    unfold parseRange
    rw [splitByte_not_mem 58 s hs]
    cases h : a1ToGrid s <;> simp [h]
  · intro a b ha hb
    unfold parseRange
    rw [splitByte_append 58 a b ha, splitByte_not_mem 58 b hb]
    cases h1 : a1ToGrid a <;> cases h2 : a1ToGrid b <;> simp [h1, h2]

/-- C3 witness: the one-colon branch applied to the range A1:B10. -/
theorem parseRange_spec_witness :
    parseRange (gs "A1" ++ 58 :: gs "B10") =
      (a1ToGrid (gs "A1")).bind fun st => (a1ToGrid (gs "B10")).map fun en => (st, en) :=
  parseRange_spec.2.1 (gs "A1") (gs "B10") (by decide) (by decide)

/-! ### The color codec -/

/-- Hexadecimal digit accepted by strconv.ParseUint with base 16:
0-9, a-f, A-F. -/
def isHexDigit (b : Nat) : Bool :=
  (48 ≤ b && b ≤ 57) || (97 ≤ b && b ≤ 102) || (65 ≤ b && b ≤ 70)

/-- Value of a hexadecimal digit byte. -/
def hexVal (b : Nat) : Nat :=
  if b ≤ 57 then b - 48 else if b ≤ 70 then b - 55 else b - 87

/-- Base-16 value of a run of hexadecimal digit bytes. -/
def hexDigitsVal (l : GoStr) : Nat := l.foldl (fun n b => n * 16 + hexVal b) 0

/-- Model of strconv.ParseInt(s, 16, 64): an optional single leading
plus or minus sign followed by one or more hexadecimal digits (either
case), with the value required to fit in `int64`. -/
def goParseInt16 (s : GoStr) : Option Int :=
  match s with
  | [] => none
  | b :: rest =>
    let p := if b = 43 then (false, rest) else if b = 45 then (true, rest) else (false, b :: rest)
    if p.2 ≠ [] ∧ p.2.all isHexDigit then
      let v : Int := if p.1 then -(hexDigitsVal p.2 : Int) else (hexDigitsVal p.2 : Int)
      if int64Min ≤ v ∧ v ≤ int64Max then some v else none
    else none

/-- Model of strings.TrimPrefix(s, "#"): drop one leading hash byte if
present. -/
def stripHash (s : GoStr) : GoStr := if s.take 1 = [35] then s.drop 1 else s

/-- The channel triple of a sheets Color.  The Go channels are
`float64`; their values here are the exact rationals the successful
divisions denote. -/
structure Color where
  red : ℚ
  green : ℚ
  blue : ℚ
deriving DecidableEq, Repr

/-- Model of ParseColor (internal/helpers/color.go lines 17-36) and
parseColor (src/src/helpers.go lines 69-88): strip one leading hash,
require exactly 6 bytes, parse the three 2-byte chunks with
strconv.ParseInt base 16, fail if any chunk fails, and divide each
channel by 255. -/
def parseColor (hexColor : GoStr) : Option Color :=
  if (stripHash hexColor).length = 6 then
    match goParseInt16 ((stripHash hexColor).take 2),
          goParseInt16 (((stripHash hexColor).drop 2).take 2),
          goParseInt16 (((stripHash hexColor).drop 4).take 2) with
    | some r, some g, some b => some ⟨(r : ℚ) / 255, (g : ℚ) / 255, (b : ℚ) / 255⟩
    | _, _, _ => none
  else none

/-- Syntactic shape accepted by the chunk parser: an optional single
leading sign byte followed by at least one hexadecimal digit. -/
def isHexChunk (c : GoStr) : Bool :=
  match c with
  | [] => false
  | b :: rest =>
    let ds := if b = 43 ∨ b = 45 then rest else b :: rest
    !ds.isEmpty && ds.all isHexDigit

theorem hexVal_le (b : Nat) (h : isHexDigit b = true) : hexVal b ≤ 15 := by
  simp only [isHexDigit, Bool.or_eq_true, Bool.and_eq_true, decide_eq_true_eq] at h
  unfold hexVal
  split
  · omega
  · split <;> omega

theorem hexDigitsVal_le (c : GoStr) (hall : c.all isHexDigit = true)
    (hlen : c.length ≤ 2) : hexDigitsVal c ≤ 255 := by
  match c with
  | [] => simp [hexDigitsVal]
  | [a] =>
    simp only [List.all_cons, List.all_nil, Bool.and_true] at hall
    have := hexVal_le a hall
    simp only [hexDigitsVal, List.foldl_cons, List.foldl_nil]
    omega
  | [a, b] =>
    simp only [List.all_cons, List.all_nil, Bool.and_true, Bool.and_eq_true] at hall
    have h1 := hexVal_le a hall.1
    have h2 := hexVal_le b hall.2
    simp only [hexDigitsVal, List.foldl_cons, List.foldl_nil]
    omega
  | _ :: _ :: _ :: _ => simp at hlen

/-- The chunk parser succeeds on a non-empty all-hex-digit run whose
value fits, returning its base-16 value. -/
theorem goParseInt16_hex (c : GoStr) (hne : c ≠ []) (hall : c.all isHexDigit = true)
    (hle : (hexDigitsVal c : Int) ≤ int64Max) :
    goParseInt16 c = some (hexDigitsVal c : Int) := by
  match c with
  | [] => exact absurd rfl hne
  | b :: rest =>
    have hb : isHexDigit b = true := by
      simp only [List.all_cons, Bool.and_eq_true] at hall
      exact hall.1
    have hbr : (48 ≤ b ∧ b ≤ 57) ∨ (97 ≤ b ∧ b ≤ 102) ∨ (65 ≤ b ∧ b ≤ 70) := by
      simp only [isHexDigit, Bool.or_eq_true, Bool.and_eq_true, decide_eq_true_eq] at hb
      tauto
    have h43 : ¬(b = 43) := by omega
    have h45 : ¬(b = 45) := by omega
    have hmin : int64Min ≤ (hexDigitsVal (b :: rest) : Int) := by
      have h0 : (0 : Int) ≤ (hexDigitsVal (b :: rest) : Int) := Int.natCast_nonneg _
      unfold int64Min
      omega
    simp only [goParseInt16, if_neg h43, if_neg h45, ne_eq, reduceCtorEq, not_false_iff,
      true_and, hall, if_pos, if_true]
    rw [if_pos ⟨hmin, hle⟩]
    simp

/-- On chunks of at most two bytes the chunk parser succeeds exactly on
the syntactic shape `sign? hexdigit+` (the range check never fires). -/
theorem goParseInt16_isSome_iff (c : GoStr) (hlen : c.length ≤ 2) :
    (goParseInt16 c).isSome = true ↔ isHexChunk c = true := by
  match c with
  | [] => simp [goParseInt16, isHexChunk]
  | b :: rest =>
    have hrlen : rest.length ≤ 1 := by
      simp only [List.length_cons] at hlen
      omega
    have hbody : ∀ ds : GoStr, ds.length ≤ 2 → ds ≠ [] → ds.all isHexDigit = true →
        ∀ v : Int, (v = (hexDigitsVal ds : Int) ∨ v = -(hexDigitsVal ds : Int)) →
          int64Min ≤ v ∧ v ≤ int64Max := by
      intro ds hdl hdne hdall v hv
      have h255 : (hexDigitsVal ds : Int) ≤ 255 := by
        exact_mod_cast hexDigitsVal_le ds hdall hdl
      have h0 : (0 : Int) ≤ (hexDigitsVal ds : Int) := Int.natCast_nonneg _
      unfold int64Min int64Max
      rcases hv with h | h <;> omega
    by_cases h43 : b = 43
    · subst h43
      by_cases hc : rest ≠ [] ∧ rest.all isHexDigit = true
      · have hr := hbody rest (by omega) hc.1 hc.2 _ (Or.inl rfl)
        simp [goParseInt16, isHexChunk, hc.1, hc.2, hr, List.isEmpty_eq_false]
      · simp only [goParseInt16, isHexChunk, if_pos rfl]
        simp only [ne_eq, Decidable.not_and_iff_or_not, not_not,
          Bool.not_eq_true] at hc
        rcases hc with h | h <;>
          simp [h, List.isEmpty_eq_false]
    · by_cases h45 : b = 45
      · subst h45
        by_cases hc : rest ≠ [] ∧ rest.all isHexDigit = true
        · have hr := hbody rest (by omega) hc.1 hc.2 _ (Or.inr rfl)
          simp [goParseInt16, isHexChunk, hc.1, hc.2, hr, List.isEmpty_eq_false]
        · simp only [goParseInt16, isHexChunk, if_neg (by omega : ¬(45 = 43)), if_pos rfl]
          simp only [ne_eq, Decidable.not_and_iff_or_not, not_not,
            Bool.not_eq_true] at hc
          rcases hc with h | h <;>
            simp [h, List.isEmpty_eq_false]
      · by_cases hc : (b :: rest).all isHexDigit = true
        · have hr := hbody (b :: rest) hlen (by simp) hc _ (Or.inl rfl)
          simp [goParseInt16, isHexChunk, h43, h45, hc, hr]
        · simp [goParseInt16, isHexChunk, h43, h45, hc]

/-! ### C4: the success set of parseColor -/

/-- C4 (amended): parseColor succeeds exactly when, after stripping at
most one leading hash, exactly 6 bytes remain and each of the three
2-byte chunks is an optional sign followed by hexadecimal digits (the
form accepted by strconv.ParseInt with base 16); in particular "#ABC"
fails.  The stated claim, requiring all 6 remaining characters to be
hexadecimal digits, is falsified by signed chunks. -/
theorem parseColor_isSome_iff :
    (∀ s : GoStr, (parseColor s).isSome = true ↔
        ((stripHash s).length = 6 ∧ isHexChunk ((stripHash s).take 2) = true
          ∧ isHexChunk (((stripHash s).drop 2).take 2) = true
          ∧ isHexChunk (((stripHash s).drop 4).take 2) = true))
    ∧ parseColor (gs "#ABC") = none := by
  constructor
  · intro s
    by_cases h6 : (stripHash s).length = 6
    · have l1 : ((stripHash s).take 2).length ≤ 2 := by
        rw [List.length_take]; omega
      have l2 : (((stripHash s).drop 2).take 2).length ≤ 2 := by
        rw [List.length_take]; omega
      have l3 : (((stripHash s).drop 4).take 2).length ≤ 2 := by
        rw [List.length_take]; omega
      rw [← goParseInt16_isSome_iff _ l1, ← goParseInt16_isSome_iff _ l2,
        ← goParseInt16_isSome_iff _ l3]
      unfold parseColor
      rw [if_pos h6]
      cases h1 : goParseInt16 ((stripHash s).take 2) <;>
        cases h2 : goParseInt16 (((stripHash s).drop 2).take 2) <;>
          cases h3 : goParseInt16 (((stripHash s).drop 4).take 2) <;>
            simp [h6]
    · unfold parseColor
      rw [if_neg h6]
      simp [h6]
  · rfl

/-- C4 counterexample: after stripping, "+A0000" leaves exactly 6
bytes that are not all hexadecimal digits (the first is a plus sign),
yet parseColor succeeds, because strconv.ParseInt accepts a leading
sign in each 2-byte chunk. -/
theorem parseColor_sign_cex :
    (stripHash (gs "+A0000")).length = 6 ∧
      (stripHash (gs "+A0000")).all isHexDigit = false ∧
      (parseColor (gs "+A0000")).isSome = true :=
  ⟨by decide, by decide, rfl⟩

/-! ### C5: channel values of a successful parseColor -/

/-- C5 (amended): when the 6 bytes remaining after stripping the hash
are all hexadecimal digits, each channel equals the base-16 value of
its 2-byte chunk divided by 255 and lies in [0, 1].  (For inputs that
parseColor accepts through signed chunks the stated claim fails: a
negative chunk yields a negative channel, see the counterexample.) -/
theorem parseColor_channels (s : GoStr)
    (h6 : (stripHash s).length = 6) (hhex : (stripHash s).all isHexDigit = true) :
    parseColor s = some ⟨(hexDigitsVal ((stripHash s).take 2) : ℚ) / 255,
                         (hexDigitsVal (((stripHash s).drop 2).take 2) : ℚ) / 255,
                         (hexDigitsVal (((stripHash s).drop 4).take 2) : ℚ) / 255⟩
    ∧ (0 ≤ (hexDigitsVal ((stripHash s).take 2) : ℚ) / 255 ∧
        (hexDigitsVal ((stripHash s).take 2) : ℚ) / 255 ≤ 1)
    ∧ (0 ≤ (hexDigitsVal (((stripHash s).drop 2).take 2) : ℚ) / 255 ∧
        (hexDigitsVal (((stripHash s).drop 2).take 2) : ℚ) / 255 ≤ 1)
    ∧ (0 ≤ (hexDigitsVal (((stripHash s).drop 4).take 2) : ℚ) / 255 ∧
        (hexDigitsVal (((stripHash s).drop 4).take 2) : ℚ) / 255 ≤ 1) := by
  have hallmem : ∀ x ∈ stripHash s, isHexDigit x = true := by
    rw [← List.all_eq_true]; exact hhex
  have hall1 : ((stripHash s).take 2).all isHexDigit = true := by
    rw [List.all_eq_true]
    exact fun x hx => hallmem x (List.take_subset _ _ hx)
  have hall2 : (((stripHash s).drop 2).take 2).all isHexDigit = true := by
    rw [List.all_eq_true]
    exact fun x hx => hallmem x (List.drop_subset _ _ (List.take_subset _ _ hx))
  have hall3 : (((stripHash s).drop 4).take 2).all isHexDigit = true := by
    rw [List.all_eq_true]
    exact fun x hx => hallmem x (List.drop_subset _ _ (List.take_subset _ _ hx))
  have hl1 : ((stripHash s).take 2).length ≤ 2 := by rw [List.length_take]; omega
  have hl2 : (((stripHash s).drop 2).take 2).length ≤ 2 := by rw [List.length_take]; omega
  have hl3 : (((stripHash s).drop 4).take 2).length ≤ 2 := by rw [List.length_take]; omega
  have hn1 : ((stripHash s).take 2) ≠ [] := by
    apply List.ne_nil_of_length_pos
    rw [List.length_take]; omega
  have hn2 : (((stripHash s).drop 2).take 2) ≠ [] := by
    apply List.ne_nil_of_length_pos
    rw [List.length_take, List.length_drop]; omega
  have hn3 : (((stripHash s).drop 4).take 2) ≠ [] := by
    apply List.ne_nil_of_length_pos
    rw [List.length_take, List.length_drop]; omega
  have hfit : ∀ c : GoStr, c.all isHexDigit = true → c.length ≤ 2 →
      (hexDigitsVal c : Int) ≤ int64Max := by
    intro c hc hcl
    have h255 : (hexDigitsVal c : Int) ≤ 255 := by
      exact_mod_cast hexDigitsVal_le c hc hcl
    unfold int64Max
    omega
  have e1 := goParseInt16_hex _ hn1 hall1 (hfit _ hall1 hl1)
  have e2 := goParseInt16_hex _ hn2 hall2 (hfit _ hall2 hl2)
  have e3 := goParseInt16_hex _ hn3 hall3 (hfit _ hall3 hl3)
  have hbnd : ∀ c : GoStr, c.all isHexDigit = true → c.length ≤ 2 →
      0 ≤ (hexDigitsVal c : ℚ) / 255 ∧ (hexDigitsVal c : ℚ) / 255 ≤ 1 := by
    intro c hc hcl
    have h255 : (hexDigitsVal c : ℚ) ≤ 255 := by
      exact_mod_cast hexDigitsVal_le c hc hcl
    have h0 : (0 : ℚ) ≤ (hexDigitsVal c : ℚ) := by positivity
    constructor
    · positivity
    · rw [div_le_one (by norm_num : (0 : ℚ) < 255)]
      exact h255
  refine ⟨?_, hbnd _ hall1 hl1, hbnd _ hall2 hl2, hbnd _ hall3 hl3⟩
  unfold parseColor
  rw [if_pos h6, e1, e2, e3]
  push_cast
  rfl

/-- C5 witness: the red example of the specification, instantiated at
the input "#FF0000". -/
theorem parseColor_channels_witness :
    parseColor (gs "#FF0000") = some ⟨1, 0, 0⟩ := by
  have h := (parseColor_channels (gs "#FF0000") (by decide) (by decide)).1
  have v1 : hexDigitsVal ((stripHash (gs "#FF0000")).take 2) = 255 := by decide
  have v2 : hexDigitsVal (((stripHash (gs "#FF0000")).drop 2).take 2) = 0 := by decide
  have v3 : hexDigitsVal (((stripHash (gs "#FF0000")).drop 4).take 2) = 0 := by decide
  rw [h, v1, v2, v3]
  norm_num [Option.some.injEq, Color.mk.injEq]

/-- C5 counterexample: parseColor accepts "-10000" and returns a red
channel of -1/255, which is negative and is not any byte divided by
255; the stated claim, quantified over every accepted input, is false. -/
theorem parseColor_negative_cex :
    parseColor (gs "-10000") = some ⟨-1 / 255, 0, 0⟩ ∧ (-1 / 255 : ℚ) < 0 := by
  constructor
  · have e1 : goParseInt16 ((stripHash (gs "-10000")).take 2) = some (-1) := by decide
    have e2 : goParseInt16 (((stripHash (gs "-10000")).drop 2).take 2) = some 0 := by
      decide
    have e3 : goParseInt16 (((stripHash (gs "-10000")).drop 4).take 2) = some 0 := by
      decide
    unfold parseColor
    rw [if_pos (by decide : (stripHash (gs "-10000")).length = 6), e1, e2, e3]
    norm_num
  · norm_num

/-! ### C6: the column decode / encode roundtrip -/

/-- Modelled from the spec: the repository contains no inverse column
encoding, only the decoder A1ToGrid; the testable-properties section
of the spec requires the inverse of the bijection sending the letter A
to 1, Z to 26, AA to 27.  The inverse writes m in base 26 with digit
values 1..26, most significant digit first, as bytes of the letters
A..Z. -/
def colLetters : Nat → GoStr
  | 0 => []
  | m + 1 => colLetters (m / 26) ++ [65 + m % 26]
decreasing_by exact Nat.lt_succ_of_le (Nat.div_le_self _ _)

/-- Modelled from the spec: re-encode a zero-indexed column index as
its letter run (0 is the letter A, 25 is Z, 26 is AA). -/
def colIndexToLetters (col : Nat) : GoStr := colLetters (col + 1)

/-- Encoding is a left inverse of the base-26 letter value on
uppercase-letter runs. -/
theorem colLetters_lettersVal (s : GoStr) (h : ∀ b ∈ s, isUpperB b = true) :
    colLetters (lettersVal s) = s := by
  induction s using List.reverseRecOn with
  | nil =>
    show colLetters 0 = []
    simp [colLetters]
  | append_singleton l b ih =>
    have hb : isUpperB b = true := h b (by simp)
    have hb2 : 65 ≤ b ∧ b ≤ 90 := by
      simp only [isUpperB, Bool.and_eq_true, decide_eq_true_eq] at hb
      exact hb
    have hl : ∀ x ∈ l, isUpperB x = true := fun x hx => h x (by simp [hx])
    have hm : lettersVal (l ++ [b]) = lettersVal l * 26 + (b - 64) := by
      simp [lettersVal, List.foldl_append]
    have hsplit : lettersVal l * 26 + (b - 64) =
        (lettersVal l * 26 + (b - 64 - 1)) + 1 := by omega
    rw [hm, hsplit]
    simp only [colLetters]
    have hdiv : (lettersVal l * 26 + (b - 64 - 1)) / 26 = lettersVal l := by omega
    have hmod : (lettersVal l * 26 + (b - 64 - 1)) % 26 = b - 64 - 1 := by omega
    have hbyte : 65 + (b - 64 - 1) = b := by omega
    rw [hdiv, hmod, hbyte, ih hl]

/-- Size of the unbounded column value in terms of the run length. -/
theorem foldl_purStep_le (l : GoStr) :
    ∀ init : Nat, (∀ b ∈ l, isUpperB b = true) →
      l.foldl purStep init ≤ (init + 1) * 27 ^ l.length - 1 := by
  induction l with
  | nil => intro init _; simp
  | cons b rest ih =>
    intro init hall
    have hb : isUpperB b = true := hall b (List.mem_cons_self b rest)
    have hb2 : 65 ≤ b ∧ b ≤ 90 := by
      simp only [isUpperB, Bool.and_eq_true, decide_eq_true_eq] at hb
      exact hb
    have hrest : ∀ x ∈ rest, isUpperB x = true := fun x hx =>
      hall x (List.mem_cons_of_mem b hx)
    have h1 : (b :: rest).foldl purStep init = rest.foldl purStep (purStep init b) := rfl
    have h2 := ih (purStep init b) hrest
    have h3 : (purStep init b + 1) * 27 ^ rest.length ≤ (init + 1) * 27 ^ (b :: rest).length := by
      have hstep : purStep init b + 1 ≤ (init + 1) * 27 := by
        unfold purStep
        omega
      calc (purStep init b + 1) * 27 ^ rest.length
          ≤ ((init + 1) * 27) * 27 ^ rest.length := Nat.mul_le_mul_right _ hstep
        _ = (init + 1) * 27 ^ (b :: rest).length := by
            rw [List.length_cons, pow_succ]
            ring
    rw [h1]
    omega

/-- C6: for every uppercase-letter string of length 1 to 3, a1ToGrid
decodes it to (base-26 value - 1) with row -1, and re-encoding that
zero-indexed column reproduces the original letters. -/
theorem a1_column_roundtrip (s : GoStr) (hne : s ≠ []) (hlen : s.length ≤ 3)
    (hup : ∀ b ∈ s, isUpperB b = true) :
    a1ToGrid s = some (((lettersVal s : Nat) : Int) - 1, -1) ∧
      colIndexToLetters (lettersVal s - 1) = s := by
  have hbound : lettersVal s ≤ 19682 := by
    have h := foldl_purStep_le s 0 hup
    rw [← lettersVal_eq_foldl] at h
    have hpow : (27 : Nat) ^ s.length ≤ 27 ^ 3 := Nat.pow_le_pow_right (by norm_num) hlen
    have h27 : (27 : Nat) ^ 3 = 19683 := by norm_num
    omega
  have hfit : ((lettersVal s : Nat) : Int) ≤ int64Max := by
    have : ((lettersVal s : Nat) : Int) ≤ 19682 := by exact_mod_cast hbound
    unfold int64Max
    omega
  have hpos : 1 ≤ lettersVal s := by
    match s, hne with
    | b :: rest, _ =>
      have hb : isUpperB b = true := hup b (List.mem_cons_self b rest)
      have hb2 : 65 ≤ b ∧ b ≤ 90 := by
        simp only [isUpperB, Bool.and_eq_true, decide_eq_true_eq] at hb
        exact hb
      have h1 : rest.foldl purStep (purStep 0 b) = lettersVal (b :: rest) := rfl
      have h2 := foldl_purStep_ge rest (purStep 0 b)
      have h3 : 1 ≤ purStep 0 b := by unfold purStep; omega
      rw [← h1]
      exact le_trans h3 h2
  have htake : s.takeWhile isUpperB = s := List.takeWhile_eq_self_iff.mpr hup
  have hdrop : s.dropWhile isUpperB = [] := List.dropWhile_eq_nil_iff.mpr hup
  constructor
  · have hfold : s.foldl a1Step (0 : Int) = ((lettersVal s : Nat) : Int) := by
      have h := a1fold_no_wrap s 0 hup (by rw [← lettersVal_eq_foldl]; exact hfit)
      rw [lettersVal_eq_foldl]
      exact_mod_cast h
    have h0 : (0 : Int) ≤ ((lettersVal s : Nat) : Int) := Int.natCast_nonneg _
    unfold a1ToGrid
    rw [a1Letters_eq, htake, hdrop]
    simp only [if_pos]
    rw [hfold]
    have hw : wrap64 (((lettersVal s : Nat) : Int) - 1) = ((lettersVal s : Nat) : Int) - 1 :=
      wrap64_eq_self _ (by unfold int64Min; omega) (by unfold int64Max at hfit ⊢; omega)
    rw [hw]
    norm_num [wrap64]
  · unfold colIndexToLetters
    have : lettersVal s - 1 + 1 = lettersVal s := by omega
    rw [this]
    exact colLetters_lettersVal s hup

/-- C6 witness: the run AA decodes to column 26 and re-encodes to AA. -/
theorem a1_column_roundtrip_witness :
    a1ToGrid (gs "AA") = some (((lettersVal (gs "AA") : Nat) : Int) - 1, -1) ∧
      colIndexToLetters (lettersVal (gs "AA") - 1) = gs "AA" :=
  a1_column_roundtrip (gs "AA") (by decide) (by decide) (by decide)

/-! ### C7: the add-data command on malformed JSON -/

/-- Starts-with test on byte sequences. -/
def leadsWith : GoStr → GoStr → Bool
  | [], _ => true
  | _ :: _, [] => false
  | p :: ps, b :: bs => p = b && leadsWith ps bs

/-- Substring test on byte sequences. -/
def hasSub (pat : GoStr) : GoStr → Bool
  | [] => pat.isEmpty
  | b :: rest => leadsWith pat (b :: rest) || hasSub pat rest

theorem hasSub_nil_pat (t : GoStr) : hasSub [] t = true := by
  induction t with
  | nil => rfl
  | cons b rest _ => simp [hasSub, leadsWith]

theorem leadsWith_append (p : GoStr) :
    ∀ s t : GoStr, leadsWith p s = true → leadsWith p (s ++ t) = true := by
  induction p with
  | nil => intro s t _; rfl
  | cons x ps ih =>
    intro s t h
    match s with
    | [] => exact absurd h (by simp [leadsWith])
    | b :: bs =>
      simp only [leadsWith, Bool.and_eq_true] at h
      simp only [List.cons_append, leadsWith, Bool.and_eq_true]
      exact ⟨h.1, ih bs t h.2⟩

theorem hasSub_append_left (pat : GoStr) :
    ∀ s t : GoStr, hasSub pat s = true → hasSub pat (s ++ t) = true := by
  intro s
  induction s with
  | nil =>
    intro t h
    simp only [hasSub, List.isEmpty_iff] at h
    subst h
    simpa using hasSub_nil_pat t
  | cons b bs ih =>
    intro t h
    simp only [hasSub, Bool.or_eq_true] at h
    rcases h with h | h
    · simp only [List.cons_append, hasSub, Bool.or_eq_true]
      exact Or.inl (leadsWith_append pat (b :: bs) t h)
    · simp only [List.cons_append, hasSub, Bool.or_eq_true]
      exact Or.inr (ih t h)

/-- A call issued to the remote spreadsheet service. -/
inductive NetEvent (V : Type) where
  | valuesUpdate (spreadsheetID rng : GoStr) (values : List (List V))
      (valueInputOption : GoStr)

/-- The environment of one add-data invocation: the outcome of
obtaining the authenticated service, the JSON decoder for the 2-D value
array (encoding/json.Unmarshal, external to the repository), and the
remote outcome of the update call. -/
structure AddDataEnv (V : Type) where
  sheetsService : Except GoStr Unit
  unmarshal2D : GoStr → Except GoStr (List (List V))
  updateOutcome : Except GoStr Unit

/-- Value-input mode constants of internal/cli/constants.go. -/
def ValueInputModeFormula : GoStr := gs "USER_ENTERED"

/-- Raw value-input mode constant of internal/cli/constants.go. -/
def ValueInputModeRaw : GoStr := gs "RAW"

/-- Model of runAddData (internal/cli/data.go lines 28-66): obtain the
service, decode the values JSON (wrapping its error with the text
"invalid JSON values: "), then issue exactly one update call to the
spreadsheet service with range "sheet!range", wrapping a remote error
with "unable to update cells: ".  The first component is the trace of
remote spreadsheet-service calls made. -/
def runAddData (V : Type) (env : AddDataEnv V) (formulaMode : Bool)
    (spreadsheetID sheetName rangeA1 valuesJSON : GoStr) :
    List (NetEvent V) × Except GoStr Unit :=
  match env.sheetsService with
  | .error e => ([], .error e)
  | .ok _ =>
    match env.unmarshal2D valuesJSON with
    | .error e => ([], .error (gs "invalid JSON values: " ++ e))
    | .ok values =>
      let vio := if formulaMode then ValueInputModeFormula else ValueInputModeRaw
      let ev := NetEvent.valuesUpdate spreadsheetID (sheetName ++ gs "!" ++ rangeA1)
        values vio
      match env.updateOutcome with
      | .error e => ([ev], .error (gs "unable to update cells: " ++ e))
      | .ok _ => ([ev], .ok ())

/-- Model of main (src/src/main.go, src/unnamed/part_000): a returned
error is printed to standard error and the process exits 1; otherwise
it exits 0. -/
def mainExitCode (r : Except GoStr Unit) : Nat :=
  match r with
  | .error _ => 1
  | .ok _ => 0

/-- C7: when the JSON decoder rejects the values argument, add-data
issues no call to the spreadsheet service and exits non-zero; when the
service handle was obtained, the failure is the wrapped decoder error,
whose message contains the word JSON. -/
theorem runAddData_badJSON (V : Type) (env : AddDataEnv V) (formulaMode : Bool)
    (spreadsheetID sheetName rangeA1 valuesJSON e : GoStr)
    (hbad : env.unmarshal2D valuesJSON = .error e) :
    (runAddData V env formulaMode spreadsheetID sheetName rangeA1 valuesJSON).1 = [] ∧
    mainExitCode
      (runAddData V env formulaMode spreadsheetID sheetName rangeA1 valuesJSON).2 = 1 ∧
    (env.sheetsService = .ok () →
      (runAddData V env formulaMode spreadsheetID sheetName rangeA1 valuesJSON).2 =
          .error (gs "invalid JSON values: " ++ e) ∧
        hasSub (gs "JSON") (gs "invalid JSON values: " ++ e) = true) := by
  have hjson : hasSub (gs "JSON") (gs "invalid JSON values: " ++ e) = true :=
    hasSub_append_left (gs "JSON") (gs "invalid JSON values: ") e (by decide)
  cases hsvc : env.sheetsService with
  | error msg =>
    refine ⟨?_, ?_, ?_⟩
    · simp [runAddData, hsvc]
    · simp [runAddData, hsvc, mainExitCode]
    · intro hok
      exact absurd hok (by simp)
  | ok u =>
    refine ⟨?_, ?_, fun _ => ⟨?_, hjson⟩⟩ <;>
      simp [runAddData, hsvc, hbad, mainExitCode]

/-- An add-data environment whose JSON decoder always fails. -/
def addDataTestEnv : AddDataEnv Unit :=
  ⟨Except.ok (), fun _ => Except.error (gs "unexpected end of JSON input"), Except.ok ()⟩

/-- C7 witness: a concrete invocation with a malformed values payload. -/
theorem runAddData_badJSON_witness :
    (runAddData Unit addDataTestEnv true (gs "sid") (gs "Sheet1") (gs "A1:B2")
        (gs "not json")).1 = [] ∧
    mainExitCode (runAddData Unit addDataTestEnv true (gs "sid") (gs "Sheet1")
        (gs "A1:B2") (gs "not json")).2 = 1 ∧
    (addDataTestEnv.sheetsService = .ok () →
      (runAddData Unit addDataTestEnv true (gs "sid") (gs "Sheet1") (gs "A1:B2")
          (gs "not json")).2 =
          .error (gs "invalid JSON values: " ++ gs "unexpected end of JSON input") ∧
        hasSub (gs "JSON")
          (gs "invalid JSON values: " ++ gs "unexpected end of JSON input") = true) :=
  runAddData_badJSON Unit addDataTestEnv true (gs "sid") (gs "Sheet1") (gs "A1:B2")
    (gs "not json") (gs "unexpected end of JSON input") rfl

/-! ### C8: the CSV import matrix -/

/-- A Go interface value holding a CSV field. -/
inductive CellValue where
  | str (s : GoStr)
deriving DecidableEq

/-- Model of the matrix-building loop of readCSV
(internal/cli/constants.go lines 231-238): each parsed CSV record
becomes one row whose entries are the fields of the record boxed as
interface values, in order. -/
def readCSVValues (records : List (List GoStr)) : List (List CellValue) :=
  records.map fun record => record.map CellValue.str

/-- C8: the matrix is row-major: outer length is the record count, row
i is record i field-by-field, each row keeps the field count of its record,
and each cell holds exactly the corresponding CSV field. -/
theorem readCSVValues_spec :
    (∀ records : List (List GoStr), (readCSVValues records).length = records.length)
    ∧ (∀ (records : List (List GoStr)) (i : Nat) (row : List GoStr),
        records[i]? = some row →
          (readCSVValues records)[i]? = some (row.map CellValue.str))
    ∧ (∀ row : List GoStr, (row.map CellValue.str).length = row.length)
    ∧ (∀ (row : List GoStr) (j : Nat) (v : GoStr),
        row[j]? = some v → (row.map CellValue.str)[j]? = some (CellValue.str v)) := by
  refine ⟨?_, ?_, ?_, ?_⟩
  · intro records
    simp [readCSVValues]
  · intro records i row h
    simp [readCSVValues, List.getElem?_map, h]
  · intro row
    simp
  · intro row j v h
    simp [List.getElem?_map, h]

/-- C8 witness: a two-record CSV, checked at row 0. -/
theorem readCSVValues_spec_witness :
    (readCSVValues [[gs "a", gs "b"], [gs "c", gs "d"]])[0]? =
      some ([gs "a", gs "b"].map CellValue.str) :=
  readCSVValues_spec.2.1 [[gs "a", gs "b"], [gs "c", gs "d"]] 0 [gs "a", gs "b"] rfl

/-! ### C9: listener shutdown in the authorization-code flow -/

/-- Which arm of the three-way select in requestTokenFromWeb fires:
an authorization code arrived on the code channel, an error arrived on
the error channel (no code in the callback, or the listener failed to
start), or the context was cancelled. -/
inductive AuthOutcome where
  | codeReceived (code : GoStr)
  | callbackError
  | cancelled

/-- Observable steps of requestTokenFromWeb after the select: the
graceful listener shutdown (which releases the bound port), the token
exchange, and the return (successful or not). -/
inductive AuthEvent where
  | serverShutdown
  | tokenExchange (code : GoStr)
  | returned (success : Bool)
deriving DecidableEq

/-- Model of the three-way wait of requestTokenFromWeb
(internal/auth/auth.go lines 134-151) and getTokenFromWeb
(src/src/auth.go): the error and cancellation arms call Shutdown and
return; the code arm falls through to an unconditional Shutdown and
only then exchanges the code, returning the exchange outcome.  The
value is the trace of events in program order. -/
def requestTokenFromWeb (outcome : AuthOutcome) (exchangeOk : Bool) : List AuthEvent :=
  match outcome with
  | .callbackError => [.serverShutdown, .returned false]
  | .cancelled => [.serverShutdown, .returned false]
  | .codeReceived code =>
      [.serverShutdown, .tokenExchange code, .returned exchangeOk]

/-- C9: on every arm of the three-way wait and every exchange outcome,
the very first event after the wait is the listener shutdown, and the
trace ends with the return; the function therefore never returns while
the listener is still up. -/
theorem requestTokenFromWeb_shutdown_first :
    ∀ (outcome : AuthOutcome) (exchangeOk : Bool),
      ∃ (rest : List AuthEvent) (success : Bool),
        requestTokenFromWeb outcome exchangeOk = AuthEvent.serverShutdown :: rest ∧
          (requestTokenFromWeb outcome exchangeOk).getLast? =
            some (AuthEvent.returned success) := by
  intro outcome exchangeOk
  cases outcome with
  | codeReceived code => exact ⟨_, exchangeOk, rfl, rfl⟩
  | callbackError => exact ⟨_, false, rfl, rfl⟩
  | cancelled => exact ⟨_, false, rfl, rfl⟩

/-! ### C10: default format patterns for unknown types -/

/-- The default-pattern table of internal/helpers/format.go
(also getDefaultFormatPattern in src/src/helpers.go). -/
def defaultFormatPatterns : List (GoStr × GoStr) :=
  [(gs "NUMBER", gs "#,##0.00"),
   (gs "CURRENCY", gs "$#,##0.00"),
   (gs "DATE", gs "yyyy-mm-dd"),
   (gs "PERCENT", gs "0.00%"),
   (gs "TIME", gs "hh:mm:ss")]

/-- Model of GetDefaultFormatPattern (internal/helpers/format.go lines
21-26): table lookup, empty string when the type is unknown. -/
def getDefaultFormatPattern (formatType : GoStr) : GoStr :=
  match defaultFormatPatterns.lookup formatType with
  | some pattern => pattern
  | none => []

/-- The number-format payload of the repeat-cell request. -/
structure NumberFormat where
  type : GoStr
  pattern : GoStr
deriving DecidableEq

/-- The pattern selection and number-format construction of
runFormatCells (internal/cli/format.go lines 49-57): an empty pattern
flag falls back to the default pattern of the format type. -/
def formatCellsNumberFormat (patternFlag formatType : GoStr) : NumberFormat :=
  ⟨formatType, if patternFlag = [] then getDefaultFormatPattern formatType else patternFlag⟩

/-- The format types advertised by the help line of the format-cells
command (internal/cli/format.go line 19). -/
def formatCellsAdvertisedTypes : List GoStr :=
  [gs "NUMBER", gs "CURRENCY", gs "DATE", gs "PERCENT", gs "TIME", gs "TEXT"]

/-- C10: for every format type outside the five-entry table the default
pattern is the empty string, and with an empty pattern flag the request
is built with that empty pattern rather than failing; the advertised
type TEXT is such a type. -/
theorem getDefaultFormatPattern_unknown :
    (∀ t : GoStr, t ∉ defaultFormatPatterns.map Prod.fst →
        getDefaultFormatPattern t = [] ∧ formatCellsNumberFormat [] t = ⟨t, []⟩)
    ∧ gs "TEXT" ∈ formatCellsAdvertisedTypes
    ∧ gs "TEXT" ∉ defaultFormatPatterns.map Prod.fst := by
  refine ⟨?_, by decide, by decide⟩
  intro t ht
  simp only [defaultFormatPatterns, List.map_cons, List.map_nil, List.mem_cons,
    List.not_mem_nil, or_false, not_or] at ht
  obtain ⟨h1, h2, h3, h4, h5⟩ := ht
  have b1 : (t == gs "NUMBER") = false := beq_eq_false_iff_ne.mpr h1
  have b2 : (t == gs "CURRENCY") = false := beq_eq_false_iff_ne.mpr h2
  have b3 : (t == gs "DATE") = false := beq_eq_false_iff_ne.mpr h3
  have b4 : (t == gs "PERCENT") = false := beq_eq_false_iff_ne.mpr h4
  have b5 : (t == gs "TIME") = false := beq_eq_false_iff_ne.mpr h5
  have hpat : getDefaultFormatPattern t = [] := by
    simp [getDefaultFormatPattern, defaultFormatPatterns, List.lookup, b1, b2, b3, b4, b5]
  exact ⟨hpat, by simp [formatCellsNumberFormat, hpat]⟩

/-- C10 witness: the advertised type TEXT, absent from the table. -/
theorem getDefaultFormatPattern_unknown_witness :
    getDefaultFormatPattern (gs "TEXT") = [] ∧
      formatCellsNumberFormat [] (gs "TEXT") = ⟨gs "TEXT", []⟩ :=
  getDefaultFormatPattern_unknown.1 (gs "TEXT") (by decide)

example : a1ToGrid (gs "AA10") = some (26, 9) := by decide
example : a1ToGrid (gs "5B") = none := by decide
example : a1ToGrid (gs "A-5") = some (0, -6) := by decide
example : parseRange (gs "A1:B10") = some ((0, 0), (1, 9)) := by decide
example : parseRange (gs "C3") = some ((2, 2), (2, 2)) := by decide
